import Mathlib

/-!
Console music player: playlist and playback state machine

A shallow embedding of `class MusicPlayer` from `src/main.cpp`.

* The five data members (`playlist`, `currentIndex`, `music`, `looping`, `volume`) become the
  fields of the structure `MusicPlayer`; a sixth field `trace` records, in program order, every
  call the player makes on its `sf::Music` object and every line it writes to the console.
* `int` is modelled by `Int`: `static_cast<int>(playlist.size())` is the length of the list (the
  playlist size is taken to be representable in `int`). The C++ `%` on `int` is the truncating
  remainder `Int.tmod`, undefined for divisor 0. The sum `currentIndex - 1 + size` of `previous`
  is taken exactly in `prevIndex`; `prevIndexInt32` is the same expression in 32-bit arithmetic,
  equal to it for playlists of up to 2^30 tracks and different beyond.
* `float` is modelled by `FloatVal`: NaN, the two infinities, or a number, taken as a rational
  (every finite `float` is one); the player only stores, compares and forwards the volume, and a
  comparison with a NaN operand is false.
* Undefined behaviour (reading `playlist[i]` out of bounds, dereferencing a null `music`,
  `% 0`) is the result `none` of the operations that contain such an expression.
* The outside world is passed in explicitly: `openFromFile : String → Bool` says which references
  the audio backend opens at the time of the call, `file : Option String` is the content of the
  playlist file (`none` when it cannot be opened for reading), `writable : Bool` says whether
  the file can be opened for writing.
-/

/-- Playback status of an `sf::Music` object (`sf::SoundSource::Status`). -/
inductive Status
  | Stopped
  | Paused
  | Playing
deriving DecidableEq, Repr

/-- A value of the C++ type `float` as far as the player tells values apart: NaN, minus or plus
infinity, or a number (every finite `float` is a rational number). -/
inductive FloatVal
  | nan
  | negInf
  | num (q : ℚ)
  | posInf
deriving DecidableEq

namespace FloatVal

/-- The `float` literals of the source, `0.f` and `100.f`. -/
instance instOfNatFloatVal (n : Nat) : OfNat FloatVal n := ⟨FloatVal.num (n : ℚ)⟩

/-- The comparison `a < b` on `float`: false as soon as an operand is NaN. -/
def lt : FloatVal → FloatVal → Bool
  | nan, _ => false
  | _, nan => false
  | negInf, negInf => false
  | negInf, _ => true
  | num _, negInf => false
  | num a, num b => decide (a < b)
  | num _, posInf => true
  | posInf, _ => false

/-- The value lies in `[0, 100]`; NaN and the infinities do not. -/
def inRange : FloatVal → Prop
  | num q => 0 ≤ q ∧ q ≤ 100
  | _ => False

end FloatVal

/-- The `sf::Music` object as the player observes and drives it: the reference it was opened on
(`none` for an object that has not opened a file), the volume and loop flag last set on it, and
its transport status. -/
structure Music where
  source : Option String
  volume : FloatVal
  loop : Bool
  status : Status
deriving DecidableEq

namespace Music

/-- Default-constructed object, `new sf::Music()`: nothing opened, volume 100, no loop, stopped. -/
def fresh : Music := ⟨none, 100, false, Status.Stopped⟩

/-- Effect of a successful `openFromFile(ref)`. -/
def opened (m : Music) (ref : String) : Music := { m with source := some ref, status := Status.Stopped }

/-- Effect of `setVolume(v)` on the handle. -/
def setVolume (m : Music) (v : FloatVal) : Music := { m with volume := v }

/-- Effect of `setLoop(b)` on the handle. -/
def setLoop (m : Music) (b : Bool) : Music := { m with loop := b }

/-- Effect of `play()` on the handle: start or resume playback. -/
def play (m : Music) : Music := { m with status := Status.Playing }

/-- Effect of `pause()` on the handle: a playing stream becomes paused, otherwise no effect. -/
def pause (m : Music) : Music :=
  { m with status := if m.status = Status.Playing then Status.Paused else m.status }

/-- Effect of `stop()` on the handle. -/
def stop (m : Music) : Music := { m with status := Status.Stopped }

end Music

/-- One observable action of the player: a call on its `sf::Music` object or console output. -/
inductive Event
  | musicNew
  | musicOpenFromFile (ref : String) (ok : Bool)
  | musicSetVolume (v : FloatVal)
  | musicSetLoop (b : Bool)
  | musicPlay
  | musicPause
  | musicStop
  | musicDelete
  | cout (text : String)
  | cerr (text : String)
deriving DecidableEq

/-- The data members of `class MusicPlayer`, plus the trace of observable actions. -/
structure MusicPlayer where
  playlist : List String
  currentIndex : Int
  music : Option Music
  looping : Bool
  volume : FloatVal
  trace : List Event
deriving DecidableEq

/-- The C++ `a % b` on `int`: truncating remainder, undefined (`none`) when `b` is 0. -/
def cmod (a b : Int) : Option Int :=
  if b = 0 then none else some (Int.tmod a b)

/-- The call `std::clamp(v, lo, hi)`: `(v < lo) ? lo : (hi < v) ? hi : v`. -/
def clamp (v lo hi : FloatVal) : FloatVal :=
  if FloatVal.lt v lo then lo else if FloatVal.lt hi v then hi else v

/-- The call `std::getline(in, line)` on the unread characters of a stream: `none` when the
stream is at its end (nothing extracted, the stream goes bad); otherwise the characters up to the
first newline, which is consumed and not stored, or up to the end of the stream. -/
def getline : List Char → Option (List Char × List Char)
  | [] => none
  | c :: cs =>
    if c = '\n' then some ([], cs)
    else
      match getline cs with
      | none => some ([c], [])
      | some (line, rest) => some (c :: line, rest)

/-- The loop `while (std::getline(in, line)) { if (line.empty()) continue; playlist.push_back(line); }`
run for at most `fuel` iterations. -/
def readLoop : Nat → List Char → List String → List String
  | 0, _, playlist => playlist
  | fuel + 1, stream, playlist =>
    match getline stream with
    | none => playlist
    | some (line, rest) =>
      if line.isEmpty then readLoop fuel rest playlist
      else readLoop fuel rest (playlist ++ [String.mk line])

/-- The loop `for (const auto &p : playlist) out << p << (newline)`: the text written. -/
def writeLoop : List String → String → String
  | [], out => out
  | p :: ps, out => writeLoop ps (out ++ p ++ "\n")

/-- The characters `writeLoop` writes for a playlist: each reference followed by a newline. -/
def fileChars : List String → List Char
  | [] => []
  | p :: ps => p.data ++ '\n' :: fileChars ps

/-- The expression `playlist[index]` for an `int` index: `none` is an out-of-bounds read. -/
def subscript (playlist : List String) (index : Int) : Option String :=
  if index < 0 then none else playlist[index.toNat]?

namespace MusicPlayer

/-- The default-constructed player: empty playlist, `currentIndex = -1`, no music object,
`looping = false`, `volume = 100`. -/
def init : MusicPlayer := ⟨[], -1, none, false, 100, []⟩

/-- Appends observable actions to the trace. -/
def emit (s : MusicPlayer) (es : List Event) : MusicPlayer := { s with trace := s.trace ++ es }

/-- The method `statusToString`. -/
def statusToString : Status → String
  | Status.Stopped => "Stopped"
  | Status.Paused => "Paused"
  | Status.Playing => "Playing"

/-- The method `loadPlaylistFromFile`; `file` is the content of the file, `none` when the
`ifstream` is not open. Every `getline` call consumes at least one character, so
`length + 1` iterations exhaust the stream. -/
def loadPlaylistFromFile (file : Option String) (s : MusicPlayer) : Bool × MusicPlayer :=
  match file with
  | none => (false, s)
  | some content =>
    let playlist := readLoop (content.data.length + 1) content.data []
    (true, { s with playlist := playlist, currentIndex := if playlist.isEmpty then -1 else 0 })

/-- The method `savePlaylistToFile`; `writable` says whether the `ofstream` is open. Returns the
result and the text written to the file (`none` when nothing was written). -/
def savePlaylistToFile (writable : Bool) (s : MusicPlayer) : Bool × Option String :=
  if writable then (true, some (writeLoop s.playlist "")) else (false, none)

/-- The method `addSong`. -/
def addSong (path : String) (s : MusicPlayer) : MusicPlayer :=
  { s with playlist := s.playlist ++ [path],
           currentIndex := if s.currentIndex = -1 then 0 else s.currentIndex }

/-- The statement `if (music) { music->stop(); delete music; music = nullptr; }`. -/
def release (s : MusicPlayer) : MusicPlayer :=
  match s.music with
  | some _ => { s with music := none, trace := s.trace ++ [Event.musicStop, Event.musicDelete] }
  | none => s

/-- The method `openTrack`; `openFromFile ref` is the result of `music->openFromFile(ref)`. -/
def openTrack (openFromFile : String → Bool) (s : MusicPlayer) (index : Int) :
    Option (Bool × MusicPlayer) :=
  if index < 0 ∨ index ≥ (s.playlist.length : Int) then some (false, s)
  else
    let s1 := release s
    let s2 := { s1 with music := some Music.fresh, trace := s1.trace ++ [Event.musicNew] }
    match subscript s2.playlist index with
    | none => none
    | some ref =>
      if openFromFile ref = false then
        some (false, { s2 with
          music := none,
          trace := s2.trace ++ [Event.musicOpenFromFile ref false,
            Event.cerr ("Failed to open: " ++ ref ++ "\n"), Event.musicDelete] })
      else
        some (true, { s2 with
          music := some (((Music.fresh.opened ref).setVolume s2.volume).setLoop s2.looping),
          currentIndex := index,
          trace := s2.trace ++ [Event.musicOpenFromFile ref true,
            Event.musicSetVolume s2.volume, Event.musicSetLoop s2.looping] })

/-- The statement `music->play();`: `none` when `music` is null. -/
def musicPlay (s : MusicPlayer) : Option MusicPlayer :=
  match s.music with
  | none => none
  | some m => some { s with music := some m.play, trace := s.trace ++ [Event.musicPlay] }

/-- The statement `if (openTrack(i)) music->play();`, given the outcome of the `openTrack` call. -/
def thenPlay : Option (Bool × MusicPlayer) → Option MusicPlayer
  | none => none
  | some (true, s1) => musicPlay s1
  | some (false, s1) => some s1

/-- The method `play`. -/
def play (openFromFile : String → Bool) (s : MusicPlayer) : Option MusicPlayer :=
  match s.music with
  | none =>
    if s.currentIndex = -1 then
      if s.playlist.isEmpty then some (s.emit [Event.cout "No songs in playlist.\n"])
      else thenPlay (openTrack openFromFile s 0)
    else thenPlay (openTrack openFromFile s s.currentIndex)
  | some _ => musicPlay s

/-- The method `pause`. -/
def pause (s : MusicPlayer) : MusicPlayer :=
  match s.music with
  | some m => { s with music := some m.pause, trace := s.trace ++ [Event.musicPause] }
  | none => s

/-- The method `stop`. -/
def stop (s : MusicPlayer) : MusicPlayer :=
  match s.music with
  | some m => { s with music := some m.stop, trace := s.trace ++ [Event.musicStop] }
  | none => s

/-- The expression `(currentIndex + 1) % static_cast<int>(playlist.size())` of `next`. -/
def nextIndex (s : MusicPlayer) : Option Int :=
  cmod (s.currentIndex + 1) (s.playlist.length : Int)

/-- The expression `(currentIndex - 1 + size) % size` of `previous`, with
`size = static_cast<int>(playlist.size())`, the sum taken exactly. It is the value the 32-bit
expression has while the sum is at most `INT_MAX`, which holds for every playlist of up to 2^30
tracks (`prevIndexInt32_eq`); beyond that size the `int` sum can overflow, and `prevIndexInt32`
is what the program computes. -/
def prevIndex (s : MusicPlayer) : Option Int :=
  cmod (s.currentIndex - 1 + (s.playlist.length : Int)) (s.playlist.length : Int)

/-- The method `next`. -/
def next (openFromFile : String → Bool) (s : MusicPlayer) : Option MusicPlayer :=
  if s.playlist.isEmpty then some s
  else
    match nextIndex s with
    | none => none
    | some i => thenPlay (openTrack openFromFile s i)

/-- The method `previous`. -/
def previous (openFromFile : String → Bool) (s : MusicPlayer) : Option MusicPlayer :=
  if s.playlist.isEmpty then some s
  else
    match prevIndex s with
    | none => none
    | some i => thenPlay (openTrack openFromFile s i)

/-- The method `setVolume`. -/
def setVolume (v : FloatVal) (s : MusicPlayer) : MusicPlayer :=
  let s1 := { s with volume := clamp v 0 100 }
  match s1.music with
  | some m => { s1 with music := some (m.setVolume s1.volume),
                        trace := s1.trace ++ [Event.musicSetVolume s1.volume] }
  | none => s1

/-- The method `toggleLoop`. -/
def toggleLoop (s : MusicPlayer) : MusicPlayer :=
  let s1 := { s with looping := !s.looping }
  let s2 :=
    match s1.music with
    | some m => { s1 with music := some (m.setLoop s1.looping),
                          trace := s1.trace ++ [Event.musicSetLoop s1.looping] }
    | none => s1
  s2.emit [Event.cout ("Looping is now " ++ (if s2.looping then "ON" else "OFF") ++ "\n")]

/-- The loop of `printPlaylist` from position `i` on: one line per remaining track. -/
def playlistLines (currentIndex : Int) : Nat → List String → String
  | _, [] => ""
  | i, p :: ps =>
    (if (i : Int) = currentIndex then " -> " else "    ") ++ toString i ++ ": " ++ p ++ "\n"
      ++ playlistLines currentIndex (i + 1) ps

/-- The text written by the method `printPlaylist`. -/
def printPlaylist (s : MusicPlayer) : String :=
  "Playlist (" ++ toString s.playlist.length ++ "):\n" ++ playlistLines s.currentIndex 0 s.playlist

/-- The text written by the method `printStatus`; `showFloat` is the stream formatting of a
`float`. The track field reads `playlist[currentIndex]` under its own bounds check. -/
def printStatus (showFloat : FloatVal → String) (s : MusicPlayer) : String :=
  "Status: " ++
    (match s.music with
     | some m =>
       statusToString m.status ++
       (if s.currentIndex ≥ 0 ∧ s.currentIndex < (s.playlist.length : Int) then
          " | Track: " ++ (subscript s.playlist s.currentIndex).getD ""
        else "") ++
       " | Volume: " ++ showFloat s.volume ++
       " | Loop: " ++ (if s.looping then "Yes" else "No") ++ "\n"
     | none => "No track loaded\n")

/-- A call of a public method together with what the outside world answers during the call. -/
inductive Call
  | loadPlaylistFromFile (file : Option String)
  | savePlaylistToFile (writable : Bool)
  | addSong (path : String)
  | openTrack (openFromFile : String → Bool) (index : Int)
  | play (openFromFile : String → Bool)
  | pause
  | stop
  | next (openFromFile : String → Bool)
  | previous (openFromFile : String → Bool)
  | setVolume (v : FloatVal)
  | toggleLoop
  | printPlaylist
  | printStatus (showFloat : FloatVal → String)

/-- The player after a call; `none` when the call runs into undefined behaviour. -/
def step (s : MusicPlayer) : Call → Option MusicPlayer
  | Call.loadPlaylistFromFile file => some (loadPlaylistFromFile file s).2
  | Call.savePlaylistToFile _ => some s
  | Call.addSong path => some (addSong path s)
  | Call.openTrack openFromFile index => (openTrack openFromFile s index).map Prod.snd
  | Call.play openFromFile => play openFromFile s
  | Call.pause => some (pause s)
  | Call.stop => some (stop s)
  | Call.next openFromFile => next openFromFile s
  | Call.previous openFromFile => previous openFromFile s
  | Call.setVolume v => some (setVolume v s)
  | Call.toggleLoop => some (toggleLoop s)
  | Call.printPlaylist => some (s.emit [Event.cout (printPlaylist s)])
  | Call.printStatus showFloat => some (s.emit [Event.cout (printStatus showFloat s)])

/-- The player after a sequence of calls, made in list order. -/
def run : List Call → MusicPlayer → Option MusicPlayer
  | [], s => some s
  | c :: cs, s => (step s c).bind (run cs)

/-- States the player can be in: the default-constructed player and whatever any sequence of
public method calls makes of it. -/
inductive Reachable : MusicPlayer → Prop
  | init : Reachable MusicPlayer.init
  | step (s s1 : MusicPlayer) (c : Call) : Reachable s → step s c = some s1 → Reachable s1

/-- The cursor is `-1` on an empty playlist and a valid index on a non-empty one. -/
def CursorInv (s : MusicPlayer) : Prop :=
  (s.playlist = [] ∧ s.currentIndex = -1) ∨
    (0 ≤ s.currentIndex ∧ s.currentIndex < (s.playlist.length : Int))

/-- Calls that put three tracks on the playlist and open the last one. -/
def threeTracksCalls : List Call :=
  [Call.addSong "a.mp3", Call.addSong "b.mp3", Call.addSong "c.mp3",
   Call.openTrack (fun _ => true) 2]

/-- The player after `threeTracksCalls`: playlist `a.mp3, b.mp3, c.mp3`, cursor 2, `c.mp3`
loaded. -/
def threeTracks : MusicPlayer :=
  { playlist := ["a.mp3", "b.mp3", "c.mp3"],
    currentIndex := 2,
    music := some ⟨some "c.mp3", 100, false, Status.Stopped⟩,
    looping := false,
    volume := 100,
    trace := [Event.musicNew, Event.musicOpenFromFile "c.mp3" true, Event.musicSetVolume 100,
      Event.musicSetLoop false] }

/-- The player after `addSong("a.mp3")` on the default-constructed player. -/
def oneTrack : MusicPlayer :=
  { playlist := ["a.mp3"], currentIndex := 0, music := none, looping := false, volume := 100,
    trace := [] }

/-- A backend that opens every reference. -/
def opensAll : String → Bool := fun _ => true

/-- The loader in the words of the specification: the file is cut at its newline characters and
the playlist is the sequence of the non-empty pieces, verbatim and in file order. -/
def specNonEmptyLines (content : String) : List String :=
  ((content.data.splitOn '\n').filter (fun line => !line.isEmpty)).map String.mk

/-- Calls that add `a.mp3`, play it, and then load a playlist file holding the line `x.mp3`. -/
def staleTrackCalls : List Call :=
  [Call.addSong "a.mp3", Call.play opensAll, Call.loadPlaylistFromFile (some "x.mp3\n")]

/-- The player after `staleTrackCalls`: playlist `x.mp3`, cursor 0, the handle opened on `a.mp3`
still loaded and playing. -/
def staleTrack : MusicPlayer :=
  { playlist := ["x.mp3"],
    currentIndex := 0,
    music := some ⟨some "a.mp3", 100, false, Status.Playing⟩,
    looping := false,
    volume := 100,
    trace := [Event.musicNew, Event.musicOpenFromFile "a.mp3" true, Event.musicSetVolume 100,
      Event.musicSetLoop false, Event.musicPlay] }

/-- Calls that add `a.mp3`, play it, and then load an empty playlist file. -/
def staleEmptyCalls : List Call :=
  [Call.addSong "a.mp3", Call.play opensAll, Call.loadPlaylistFromFile (some "")]

/-- The player after `staleEmptyCalls`: empty playlist, cursor -1, the handle opened on `a.mp3`
still loaded and playing. -/
def staleEmpty : MusicPlayer :=
  { playlist := [],
    currentIndex := -1,
    music := some ⟨some "a.mp3", 100, false, Status.Playing⟩,
    looping := false,
    volume := 100,
    trace := [Event.musicNew, Event.musicOpenFromFile "a.mp3" true, Event.musicSetVolume 100,
      Event.musicSetLoop false, Event.musicPlay] }

/-- The stored volume lies in `[0, 100]` or is NaN, and a loaded handle carries the stored volume
and loop flag. -/
def ConfigInv (s : MusicPlayer) : Prop :=
  (FloatVal.inRange s.volume ∨ s.volume = FloatVal.nan) ∧
    ∀ m, s.music = some m → m.volume = s.volume ∧ m.loop = s.looping

/-- A stream formatting of `float` that is only right for the volume 100. -/
def showHundred : FloatVal → String := fun _ => "100"

/-- The value a 32-bit `int` holds after an arithmetic operation whose exact result is `x`:
`x` itself when it is representable, otherwise `x` wrapped around modulo 2^32, which is what
two's-complement targets compute (the C++ standard leaves signed overflow undefined). -/
def wrapInt32 (x : Int) : Int :=
  (x + 2147483648) % 4294967296 - 2147483648

/-- The expression `(currentIndex - 1 + size) % size` of `previous` in 32-bit `int`
arithmetic. -/
def prevIndexInt32 (s : MusicPlayer) : Option Int :=
  cmod (wrapInt32 (wrapInt32 (s.currentIndex - 1) + (s.playlist.length : Int)))
    (s.playlist.length : Int)

/-- The player after `n + 1` calls `addSong(ref)` on the default-constructed player. -/
def repeated (ref : String) (n : Nat) : MusicPlayer :=
  { playlist := List.replicate (n + 1) ref, currentIndex := 0, music := none, looping := false,
    volume := 100, trace := [] }

/-- The player after `n + 1` calls `addSong("a.mp3")` and `openTrack(n)` with the open
succeeding: `n + 1` tracks, the cursor on the last one. -/
def lastOf (n : Nat) : MusicPlayer :=
  { playlist := List.replicate (n + 1) "a.mp3",
    currentIndex := (n : Int),
    music := some ⟨some "a.mp3", 100, false, Status.Stopped⟩,
    looping := false,
    volume := 100,
    trace := [Event.musicNew, Event.musicOpenFromFile "a.mp3" true, Event.musicSetVolume 100,
      Event.musicSetLoop false] }

/-- The loaded-handle invariant: a loaded handle was opened on the track at the cursor, which is
a valid index. -/
def HandleInv (s : MusicPlayer) : Prop :=
  ∀ m, s.music = some m →
    0 ≤ s.currentIndex ∧ s.currentIndex < (s.playlist.length : Int) ∧
      m.source = s.playlist[s.currentIndex.toNat]?

/-- Whether an `openTrack` call returned `true`. -/
def opened : Option (Bool × MusicPlayer) → Bool
  | some (true, _) => true
  | _ => false

end MusicPlayer

namespace MusicPlayer

/-! ## Helper lemmas -/

theorem subscript_of_nonneg (playlist : List String) (index : Int) (h0 : 0 ≤ index) :
    subscript playlist index = playlist[index.toNat]? := by
  simp [subscript, not_lt.mpr h0]

theorem release_playlist (s : MusicPlayer) : (release s).playlist = s.playlist := by
  unfold release; cases s.music <;> rfl

theorem release_currentIndex (s : MusicPlayer) : (release s).currentIndex = s.currentIndex := by
  unfold release; cases s.music <;> rfl

theorem release_volume (s : MusicPlayer) : (release s).volume = s.volume := by
  unfold release; cases s.music <;> rfl

theorem release_looping (s : MusicPlayer) : (release s).looping = s.looping := by
  unfold release; cases s.music <;> rfl

theorem release_music (s : MusicPlayer) : (release s).music = none := by
  unfold release; cases h : s.music <;> simp [h]

/-- The result of `openTrack` on an index that passes the bounds check. -/
theorem openTrack_in_range (openFromFile : String → Bool) (s : MusicPlayer) (index : Int)
    (ref : String) (h0 : 0 ≤ index) (h1 : index < (s.playlist.length : Int))
    (href : s.playlist[index.toNat]? = some ref) :
    openTrack openFromFile s index =
      if openFromFile ref = false then
        some (false, { release s with
          music := none,
          trace := (release s).trace ++ [Event.musicNew, Event.musicOpenFromFile ref false,
            Event.cerr ("Failed to open: " ++ ref ++ "\n"), Event.musicDelete] })
      else
        some (true, { release s with
          music := some ⟨some ref, s.volume, s.looping, Status.Stopped⟩,
          currentIndex := index,
          trace := (release s).trace ++ [Event.musicNew, Event.musicOpenFromFile ref true,
            Event.musicSetVolume s.volume, Event.musicSetLoop s.looping] }) := by
  have hguard : ¬ (index < 0 ∨ index ≥ (s.playlist.length : Int)) := by omega
  have hsub : subscript (release s).playlist index = some ref := by
    rw [release_playlist, subscript_of_nonneg _ _ h0, href]
  simp only [openTrack, hguard, if_false, hsub, release_volume, release_looping]
  by_cases hb : openFromFile ref = false
  · simp [hb]
  · simp [hb, Music.fresh, Music.opened, Music.setVolume, Music.setLoop]

end MusicPlayer

namespace MusicPlayer

/-! ## `openTrack` -/

/-- C6: for an index below 0 or not below the playlist size, `openTrack` returns `false` and the
player is exactly as before: same playlist, cursor, volume, loop flag, the same handle in the same
status, and nothing was called on it. For no index at all does `openTrack` read `playlist[index]`
out of bounds (the result is never the undefined one). -/
theorem openTrack_index_validation (openFromFile : String → Bool) (s : MusicPlayer)
    (index : Int) :
    (index < 0 ∨ index ≥ (s.playlist.length : Int) →
      openTrack openFromFile s index = some (false, s)) ∧
    openTrack openFromFile s index ≠ none := by
  constructor
  · intro h
    simp [openTrack, h]
  · by_cases h : index < 0 ∨ index ≥ (s.playlist.length : Int)
    · simp [openTrack, h]
    · have h0 : 0 ≤ index := by omega
      have h1 : index < (s.playlist.length : Int) := by omega
      have hlt : index.toNat < s.playlist.length := by omega
      have href : s.playlist[index.toNat]? = some (s.playlist[index.toNat]) :=
        List.getElem?_eq_getElem hlt
      rw [openTrack_in_range openFromFile s index _ h0 h1 href]
      split <;> simp

/-- C6 with three tracks and `c.mp3` loaded: `openTrack(3)` and `openTrack(-1)` return `false`
and leave the player as it is. -/
theorem openTrack_index_validation_witness :
    openTrack (fun _ => true) threeTracks 3 = some (false, threeTracks) ∧
    openTrack (fun _ => true) threeTracks (-1) = some (false, threeTracks) :=
  ⟨(openTrack_index_validation (fun _ => true) threeTracks 3).1 (by decide),
   (openTrack_index_validation (fun _ => true) threeTracks (-1)).1 (by decide)⟩

end MusicPlayer

namespace MusicPlayer

/-! ## What `openTrack` and the transport statements leave alone -/

/-- Every `openTrack` call returns; on `false` the cursor is kept, on `true` the cursor is the
index, which is in range, and a handle is loaded. The playlist and configuration are kept. -/
theorem openTrack_result (openFromFile : String → Bool) (s : MusicPlayer) (index : Int) :
    ∃ r s1, openTrack openFromFile s index = some (r, s1) ∧
      s1.playlist = s.playlist ∧ s1.volume = s.volume ∧ s1.looping = s.looping ∧
      (r = false → s1.currentIndex = s.currentIndex) ∧
      (r = true → s1.currentIndex = index ∧ 0 ≤ index ∧ index < (s.playlist.length : Int) ∧
        ∃ m, s1.music = some m) := by
  by_cases h : index < 0 ∨ index ≥ (s.playlist.length : Int)
  · refine ⟨false, s, by simp [openTrack, h], rfl, rfl, rfl, fun _ => rfl, fun hr => ?_⟩
    cases hr
  · have h0 : 0 ≤ index := by omega
    have h1 : index < (s.playlist.length : Int) := by omega
    have hlt : index.toNat < s.playlist.length := by omega
    have href : s.playlist[index.toNat]? = some (s.playlist[index.toNat]) :=
      List.getElem?_eq_getElem hlt
    rw [openTrack_in_range openFromFile s index _ h0 h1 href]
    by_cases hb : openFromFile (s.playlist[index.toNat]) = false
    · rw [if_pos hb]
      refine ⟨false, _, rfl, release_playlist s, release_volume s, release_looping s,
        fun _ => release_currentIndex s, fun hr => ?_⟩
      cases hr
    · rw [if_neg hb]
      refine ⟨true, _, rfl, release_playlist s, release_volume s, release_looping s,
        fun hr => ?_, fun _ => ⟨rfl, h0, h1, _, rfl⟩⟩
      cases hr

theorem musicPlay_of_loaded (s : MusicPlayer) (m : Music) (hm : s.music = some m) :
    musicPlay s = some { s with music := some m.play, trace := s.trace ++ [Event.musicPlay] } := by
  simp [musicPlay, hm]

/-- The statement `if (openTrack(i)) music->play();` always completes: the handle it plays is the
one `openTrack` has just loaded. Playlist and configuration are kept; the cursor is kept when the
open fails and is `i`, a valid index, when it succeeds. -/
theorem thenPlay_openTrack (openFromFile : String → Bool) (s : MusicPlayer) (index : Int) :
    ∃ s2, thenPlay (openTrack openFromFile s index) = some s2 ∧
      s2.playlist = s.playlist ∧ s2.volume = s.volume ∧ s2.looping = s.looping ∧
      (opened (openTrack openFromFile s index) = false → s2.currentIndex = s.currentIndex) ∧
      (opened (openTrack openFromFile s index) = true →
        s2.currentIndex = index ∧ 0 ≤ index ∧ index < (s.playlist.length : Int)) := by
  obtain ⟨r, s1, h, hp, hv, hl, hf, ht⟩ := openTrack_result openFromFile s index
  rw [h]
  cases r with
  | false =>
    exact ⟨s1, rfl, hp, hv, hl, fun _ => hf rfl, fun hr => by simp [opened] at hr⟩
  | true =>
    obtain ⟨hc, h0, h1, m, hm⟩ := ht rfl
    refine ⟨_, musicPlay_of_loaded s1 m hm, hp, hv, hl, fun hr => by simp [opened] at hr,
      fun _ => ⟨hc, h0, h1⟩⟩

end MusicPlayer

namespace MusicPlayer

/-! ## The cursor invariant of reachable states -/

theorem cmod_of_nonneg (a b : Int) (ha : 0 ≤ a) (hb : 0 < b) : cmod a b = some (a % b) := by
  have hb0 : b ≠ 0 := by omega
  simp [cmod, hb0, Int.tmod_eq_emod ha (le_of_lt hb)]

theorem length_pos_of_ne_nil (s : MusicPlayer) (h : s.playlist ≠ []) :
    0 < (s.playlist.length : Int) := by
  have := List.length_pos.mpr h
  omega

theorem isEmpty_eq_false_of_ne_nil (s : MusicPlayer) (h : s.playlist ≠ []) :
    s.playlist.isEmpty = false := by
  cases hp : s.playlist with
  | nil => exact absurd hp h
  | cons a l => rfl

theorem cursorInv_of_thenPlay (openFromFile : String → Bool) (s s2 : MusicPlayer) (index : Int)
    (hinv : CursorInv s) (h : thenPlay (openTrack openFromFile s index) = some s2) :
    CursorInv s2 := by
  obtain ⟨s2', h2, hp, _, _, hf, ht⟩ := thenPlay_openTrack openFromFile s index
  rw [h2] at h
  cases h
  unfold CursorInv at hinv ⊢
  rw [hp]
  cases ho : opened (openTrack openFromFile s index) with
  | false => rw [hf ho]; exact hinv
  | true =>
    obtain ⟨hc, h0, h1⟩ := ht ho
    right
    rw [hc]
    exact ⟨h0, h1⟩

theorem cursorInv_step (s s1 : MusicPlayer) (c : Call) (hinv : CursorInv s)
    (h : step s c = some s1) : CursorInv s1 := by
  cases c with
  | loadPlaylistFromFile file =>
    simp only [step, Option.some.injEq] at h
    subst h
    cases file with
    | none => exact hinv
    | some content =>
      simp only [loadPlaylistFromFile, CursorInv]
      cases hl : readLoop (content.data.length + 1) content.data [] with
      | nil => left; simp
      | cons a l => right; simp
  | savePlaylistToFile w =>
    simp only [step, Option.some.injEq] at h
    subst h
    exact hinv
  | addSong path =>
    simp only [step, Option.some.injEq] at h
    subst h
    unfold CursorInv at hinv ⊢
    right
    simp only [addSong, List.length_append, List.length_singleton]
    rcases hinv with ⟨_, hc⟩ | ⟨h0, h1⟩
    · simp [hc]
    · have hne : s.currentIndex ≠ -1 := by omega
      simp only [hne, if_false]
      push_cast
      omega
  | openTrack openFromFile index =>
    obtain ⟨r, s1', h1', hp, _, _, hf, ht⟩ := openTrack_result openFromFile s index
    simp only [step, h1', Option.map_some', Option.some.injEq] at h
    subst h
    unfold CursorInv at hinv ⊢
    rw [hp]
    cases r with
    | false => rw [hf rfl]; exact hinv
    | true =>
      obtain ⟨hc, h0, h1, _⟩ := ht rfl
      right
      rw [hc]
      exact ⟨h0, h1⟩
  | play openFromFile =>
    simp only [step, play] at h
    cases hm : s.music with
    | none =>
      simp only [hm] at h
      split at h
      · split at h
        · cases h
          exact hinv
        · exact cursorInv_of_thenPlay openFromFile s s1 0 hinv h
      · exact cursorInv_of_thenPlay openFromFile s s1 s.currentIndex hinv h
    | some m =>
      simp only [hm] at h
      rw [musicPlay_of_loaded s m hm] at h
      cases h
      exact hinv
  | pause =>
    simp only [step, Option.some.injEq] at h
    subst h
    unfold pause
    cases s.music <;> exact hinv
  | stop =>
    simp only [step, Option.some.injEq] at h
    subst h
    unfold stop
    cases s.music <;> exact hinv
  | next openFromFile =>
    simp only [step, next] at h
    split at h
    · cases h
      exact hinv
    · split at h
      · cases h
      · exact cursorInv_of_thenPlay openFromFile s s1 _ hinv h
  | previous openFromFile =>
    simp only [step, previous] at h
    split at h
    · cases h
      exact hinv
    · split at h
      · cases h
      · exact cursorInv_of_thenPlay openFromFile s s1 _ hinv h
  | setVolume v =>
    simp only [step, Option.some.injEq] at h
    subst h
    unfold setVolume
    cases hm : s.music <;> simp only [hm] <;> exact hinv
  | toggleLoop =>
    simp only [step, Option.some.injEq] at h
    subst h
    unfold toggleLoop
    cases hm : s.music <;> simp only [hm] <;> exact hinv
  | printPlaylist =>
    simp only [step, Option.some.injEq] at h
    subst h
    exact hinv
  | printStatus showFloat =>
    simp only [step, Option.some.injEq] at h
    subst h
    exact hinv

/-- Every reachable state satisfies the cursor invariant. -/
theorem reachable_cursorInv (s : MusicPlayer) (h : Reachable s) : CursorInv s := by
  induction h with
  | init => left; exact ⟨rfl, rfl⟩
  | step s s1 c _ hstep ih => exact cursorInv_step s s1 c ih hstep

/-- A run of calls from a reachable state ends in a reachable state. -/
theorem reachable_run (cs : List Call) :
    ∀ (s s1 : MusicPlayer), Reachable s → run cs s = some s1 → Reachable s1 := by
  induction cs with
  | nil =>
    intro s s1 hr h
    simp only [run, Option.some.injEq] at h
    subst h
    exact hr
  | cons c cs ih =>
    intro s s1 hr h
    simp only [run] at h
    cases hs : step s c with
    | none => simp [hs] at h
    | some s' =>
      rw [hs] at h
      exact ih s' s1 (Reachable.step s s' c hr hs) h

end MusicPlayer

namespace MusicPlayer

/-! ## `next` and `previous` -/

theorem threeTracks_run : run threeTracksCalls init = some threeTracks := by
  rfl

theorem threeTracks_reachable : Reachable threeTracks :=
  reachable_run threeTracksCalls init threeTracks Reachable.init threeTracks_run

theorem oneTrack_reachable : Reachable oneTrack :=
  Reachable.step init oneTrack (Call.addSong "a.mp3") Reachable.init rfl

/-- When `openTrack` on an index returns `true`, the statement `if (openTrack(i)) music->play();`
leaves the new handle, opened on `playlist[i]`, playing, and the cursor on `i`. -/
theorem thenPlay_openTrack_opened (openFromFile : String → Bool) (s : MusicPlayer) (index : Int)
    (ho : opened (openTrack openFromFile s index) = true) :
    ∃ ref, s.playlist[index.toNat]? = some ref ∧ openFromFile ref = true ∧
      thenPlay (openTrack openFromFile s index) =
        some { release s with
          music := some ⟨some ref, s.volume, s.looping, Status.Playing⟩,
          currentIndex := index,
          trace := (release s).trace ++ [Event.musicNew, Event.musicOpenFromFile ref true,
            Event.musicSetVolume s.volume, Event.musicSetLoop s.looping, Event.musicPlay] } := by
  by_cases h : index < 0 ∨ index ≥ (s.playlist.length : Int)
  · simp [openTrack, h, opened] at ho
  · have h0 : 0 ≤ index := by omega
    have h1 : index < (s.playlist.length : Int) := by omega
    have hlt : index.toNat < s.playlist.length := by omega
    have href : s.playlist[index.toNat]? = some (s.playlist[index.toNat]) :=
      List.getElem?_eq_getElem hlt
    rw [openTrack_in_range openFromFile s index _ h0 h1 href] at ho ⊢
    by_cases hb : openFromFile (s.playlist[index.toNat]) = false
    · simp [hb, opened] at ho
    · refine ⟨_, href, by simpa using hb, ?_⟩
      rw [if_neg hb]
      simp [thenPlay, musicPlay, Music.play]

/-- When `openTrack` on an in-range index returns `false`, the statement
`if (openTrack(i)) music->play();` leaves the cursor and playlist as they were and no handle. -/
theorem thenPlay_openTrack_failed (openFromFile : String → Bool) (s : MusicPlayer) (index : Int)
    (h0 : 0 ≤ index) (h1 : index < (s.playlist.length : Int))
    (ho : opened (openTrack openFromFile s index) = false) :
    ∃ s1, thenPlay (openTrack openFromFile s index) = some s1 ∧
      s1.currentIndex = s.currentIndex ∧ s1.playlist = s.playlist ∧ s1.music = none := by
  have hlt : index.toNat < s.playlist.length := by omega
  have href : s.playlist[index.toNat]? = some (s.playlist[index.toNat]) :=
    List.getElem?_eq_getElem hlt
  rw [openTrack_in_range openFromFile s index _ h0 h1 href] at ho ⊢
  by_cases hb : openFromFile (s.playlist[index.toNat]) = false
  · rw [if_pos hb]
    exact ⟨_, rfl, release_currentIndex s, release_playlist s, rfl⟩
  · rw [if_neg hb] at ho
    simp [opened] at ho

end MusicPlayer

namespace MusicPlayer

theorem wrapInt32_of_fits (x : Int) (h0 : -2147483648 ≤ x) (h1 : x ≤ 2147483647) :
    wrapInt32 x = x := by
  unfold wrapInt32
  omega

/-- For a playlist of up to 2^30 tracks and a cursor that satisfies the cursor invariant, the sum
`currentIndex - 1 + size` fits in `int` and the 32-bit expression of `previous` has the value of
`prevIndex`. -/
theorem prevIndexInt32_eq (s : MusicPlayer) (hinv : CursorInv s)
    (hsize : s.playlist.length ≤ 1073741824) :
    s.currentIndex - 1 + (s.playlist.length : Int) ≤ 2147483647 ∧
    prevIndexInt32 s = prevIndex s := by
  have hc : -1 ≤ s.currentIndex ∧ s.currentIndex ≤ (s.playlist.length : Int) := by
    rcases hinv with ⟨hnil, hc⟩ | ⟨h0, h1⟩
    · rw [hc]
      omega
    · omega
  have h1 : wrapInt32 (s.currentIndex - 1) = s.currentIndex - 1 :=
    wrapInt32_of_fits _ (by omega) (by omega)
  have h2 : wrapInt32 (s.currentIndex - 1 + (s.playlist.length : Int))
      = s.currentIndex - 1 + (s.playlist.length : Int) :=
    wrapInt32_of_fits _ (by omega) (by omega)
  refine ⟨by omega, ?_⟩
  unfold prevIndexInt32 prevIndex
  rw [h1, h2]

/-- On a reachable state with a non-empty playlist of up to 2^30 tracks, the operand
`cursor - 1 + size` that `previous` hands to `%` fits in `int` and is not negative, the computed index is `(cursor - 1 + size) mod size` and
lies in `[0, size)`, and `previous` runs `openTrack` on it; when that call returns `true` the
cursor is that index and the handle just opened is playing, when it returns `false` the cursor
keeps its value. From cursor 0 the index is
`size - 1`; on a one-track playlist the index is 0, the cursor itself. On an empty playlist
`previous` changes nothing. -/
theorem previous_wraps (openFromFile : String → Bool) (s : MusicPlayer) (hr : Reachable s)
    (hsize : s.playlist.length ≤ 1073741824) :
    (s.playlist = [] → previous openFromFile s = some s) ∧
    (s.playlist ≠ [] →
      ∀ j : Int, j = (s.currentIndex - 1 + (s.playlist.length : Int)) % (s.playlist.length : Int) →
      0 ≤ s.currentIndex - 1 + (s.playlist.length : Int) ∧
      0 ≤ j ∧ j < (s.playlist.length : Int) ∧
      prevIndex s = some j ∧
      previous openFromFile s = thenPlay (openTrack openFromFile s j) ∧
      (opened (openTrack openFromFile s j) = true →
        ∃ s1 m ref, previous openFromFile s = some s1 ∧ s1.currentIndex = j ∧
          s.playlist[j.toNat]? = some ref ∧ s1.playlist = s.playlist ∧
          s1.music = some m ∧ m.source = some ref ∧ m.status = Status.Playing ∧
          s1.trace.getLast? = some Event.musicPlay) ∧
      (opened (openTrack openFromFile s j) = false →
        ∃ s1, previous openFromFile s = some s1 ∧ s1.currentIndex = s.currentIndex ∧
          s1.playlist = s.playlist ∧ s1.music = none) ∧
      (s.currentIndex = 0 → j = (s.playlist.length : Int) - 1) ∧
      (s.playlist.length = 1 → s.currentIndex = 0 ∧ j = 0) ∧
      s.currentIndex - 1 + (s.playlist.length : Int) ≤ 2147483647 ∧
      prevIndexInt32 s = some j) := by
  constructor
  · intro hnil
    simp [previous, hnil]
  · intro hne j hj
    have hlen := length_pos_of_ne_nil s hne
    have hcur : 0 ≤ s.currentIndex ∧ s.currentIndex < (s.playlist.length : Int) := by
      rcases reachable_cursorInv s hr with ⟨hnil, _⟩ | h
      · exact absurd hnil hne
      · exact h
    have hop : 0 ≤ s.currentIndex - 1 + (s.playlist.length : Int) := by omega
    have hidx : prevIndex s = some j := by
      rw [hj]
      exact cmod_of_nonneg _ _ hop hlen
    have hprev : previous openFromFile s = thenPlay (openTrack openFromFile s j) := by
      simp [previous, isEmpty_eq_false_of_ne_nil s hne, hidx]
    have hj0 : 0 ≤ j := by rw [hj]; exact Int.emod_nonneg _ (by omega)
    have hj1 : j < (s.playlist.length : Int) := by rw [hj]; exact Int.emod_lt_of_pos _ hlen
    have h32 := prevIndexInt32_eq s (reachable_cursorInv s hr) hsize
    refine ⟨hop, hj0, hj1, hidx, hprev, ?_, ?_, ?_, ?_, h32.1, h32.2.trans hidx⟩
    · intro ho
      obtain ⟨ref, href, _, hplay⟩ := thenPlay_openTrack_opened openFromFile s j ho
      refine ⟨_, _, ref, hprev.trans hplay, rfl, href, release_playlist s, rfl, rfl, rfl, ?_⟩
      simp [List.getLast?_append]
    · intro ho
      obtain ⟨s1, h1, hc, hp, hm⟩ := thenPlay_openTrack_failed openFromFile s j hj0 hj1 ho
      exact ⟨s1, hprev.trans h1, hc, hp, hm⟩
    · intro hzero
      rw [hj, hzero]
      have : (0 - 1 + (s.playlist.length : Int)) = (s.playlist.length : Int) - 1 := by ring
      rw [this]
      exact Int.emod_eq_of_lt (by omega) (by omega)
    · intro hone
      have hc0 : s.currentIndex = 0 := by omega
      refine ⟨hc0, ?_⟩
      rw [hj, hc0, hone]
      decide

/-- On the playlist `a.mp3` with cursor 0, `previous` under a backend that opens everything
leaves the cursor on 0 with `a.mp3` playing. -/
theorem previous_wraps_witness :
    Reachable oneTrack ∧ oneTrack.playlist ≠ [] ∧ oneTrack.currentIndex = 0 ∧
    ∃ s1 m, previous (fun _ => true) oneTrack = some s1 ∧ s1.currentIndex = 0 ∧
      s1.music = some m ∧ m.source = some "a.mp3" ∧ m.status = Status.Playing := by
  refine ⟨oneTrack_reachable, by decide, rfl, ?_⟩
  obtain ⟨s1, m, ref, h1, h2, h3, _, h5, h6, h7, _⟩ :=
    ((previous_wraps (fun _ => true) oneTrack oneTrack_reachable (by decide)).2 (by decide) 0
      (by decide)).2.2.2.2.2.1 (by decide)
  have hrefa : ref = "a.mp3" := by
    have h : oneTrack.playlist[(0 : Int).toNat]? = some "a.mp3" := by decide
    rw [h] at h3
    exact (Option.some.inj h3).symm
  exact ⟨s1, m, h1, h2, h5, hrefa ▸ h6, h7⟩

end MusicPlayer

namespace MusicPlayer

/-! ## `setVolume` and a failed load -/

theorem floatVal_zero : (0 : FloatVal) = FloatVal.num 0 := by
  show FloatVal.num ((0 : Nat) : ℚ) = FloatVal.num 0
  simp

theorem floatVal_hundred : (100 : FloatVal) = FloatVal.num 100 := by
  show FloatVal.num ((100 : Nat) : ℚ) = FloatVal.num 100
  simp

/-- On a number `std::clamp(v, 0, 100)` is `max(0, min(100, v))`. -/
theorem clamp_num (q : ℚ) :
    clamp (FloatVal.num q) 0 100 = FloatVal.num (max 0 (min 100 q)) := by
  rw [floatVal_zero, floatVal_hundred]
  unfold clamp
  simp only [FloatVal.lt, decide_eq_true_eq]
  by_cases h0 : q < 0
  · rw [if_pos h0, min_eq_right (by linarith), max_eq_left (le_of_lt h0)]
  · rw [if_neg h0]
    by_cases h1 : (100 : ℚ) < q
    · rw [if_pos h1, min_eq_left (le_of_lt h1), max_eq_right (by norm_num)]
    · rw [if_neg h1, min_eq_right (not_lt.mp h1), max_eq_right (not_lt.mp h0)]

/-- On NaN both comparisons of `std::clamp` are false and NaN comes back. -/
theorem clamp_nan : clamp FloatVal.nan 0 100 = FloatVal.nan := by
  rfl

theorem clamp_posInf : clamp FloatVal.posInf 0 100 = 100 := by
  rfl

theorem clamp_negInf : clamp FloatVal.negInf 0 100 = 0 := by
  rfl

theorem setVolume_volume (v : FloatVal) (s : MusicPlayer) :
    (setVolume v s).volume = clamp v 0 100 := by
  unfold setVolume
  cases hm : s.music <;> rfl

/-- C9: `setVolume(v)` stores `std::clamp(v, 0, 100)`. For a number that is `max(0, min(100, v))`
(100 for 150, 0 for -10), for plus infinity 100 and for minus infinity 0. For NaN, a value the
claim covers and the command loop passes on the input `nan`, both comparisons of `std::clamp` are
false and NaN itself is stored, which is not in `[0, 100]`. In every case a loaded handle stays
loaded and gets the stored value, and `playlist`, `currentIndex` and `looping` are unchanged. -/
theorem setVolume_clamps (v : FloatVal) (s : MusicPlayer) :
    (∀ q : ℚ, (setVolume (FloatVal.num q) s).volume = FloatVal.num (max 0 (min 100 q))) ∧
    (setVolume (FloatVal.num 150) s).volume = 100 ∧
    (setVolume (FloatVal.num (-10)) s).volume = 0 ∧
    (setVolume FloatVal.posInf s).volume = 100 ∧
    (setVolume FloatVal.negInf s).volume = 0 ∧
    (setVolume FloatVal.nan s).volume = FloatVal.nan ∧
    ¬ FloatVal.inRange (setVolume FloatVal.nan s).volume ∧
    (setVolume v s).music = s.music.map (fun m => { m with volume := (setVolume v s).volume }) ∧
    (setVolume v s).trace =
      s.trace ++ (if s.music.isSome then [Event.musicSetVolume (setVolume v s).volume] else []) ∧
    (setVolume v s).playlist = s.playlist ∧
    (setVolume v s).currentIndex = s.currentIndex ∧
    (setVolume v s).looping = s.looping := by
  refine ⟨fun q => by rw [setVolume_volume, clamp_num], ?_, ?_, ?_, ?_, ?_, ?_, ?_, ?_, ?_, ?_, ?_⟩
  · rw [setVolume_volume, clamp_num, floatVal_hundred]
    norm_num
  · rw [setVolume_volume, clamp_num, floatVal_zero]
    norm_num
  · rw [setVolume_volume, clamp_posInf]
  · rw [setVolume_volume, clamp_negInf]
  · rw [setVolume_volume, clamp_nan]
  · rw [setVolume_volume, clamp_nan]
    exact fun h => h
  · rw [setVolume_volume]
    unfold setVolume
    cases hm : s.music <;> simp [Music.setVolume]
  · rw [setVolume_volume]
    unfold setVolume
    cases hm : s.music <;> simp
  · unfold setVolume
    cases hm : s.music <;> rfl
  · unfold setVolume
    cases hm : s.music <;> rfl
  · unfold setVolume
    cases hm : s.music <;> rfl

/-- C10: when the playlist file cannot be opened for reading, `loadPlaylistFromFile` returns
`false` and the player is exactly as before; in particular a player that holds three tracks from
an earlier successful load still holds those three tracks. -/
theorem loadPlaylistFromFile_failed (s : MusicPlayer) :
    loadPlaylistFromFile none s = (false, s) ∧
    (loadPlaylistFromFile (some "a.mp3\nb.mp3\nc.mp3\n") init).2.playlist
      = ["a.mp3", "b.mp3", "c.mp3"] ∧
    (loadPlaylistFromFile none
        (loadPlaylistFromFile (some "a.mp3\nb.mp3\nc.mp3\n") init).2).2.playlist
      = ["a.mp3", "b.mp3", "c.mp3"] := by
  refine ⟨rfl, ?_, ?_⟩
  · decide
  · decide

end MusicPlayer

namespace MusicPlayer

/-! ## Sequences of `next` and `previous` -/

end MusicPlayer

namespace MusicPlayer

end MusicPlayer

namespace MusicPlayer

/-! ## `previous` followed by `next`, and the reverse -/

end MusicPlayer

/-! ## Saving and loading the playlist file -/

theorem writeLoop_data (ps : List String) :
    ∀ out : String, (writeLoop ps out).data = out.data ++ fileChars ps := by
  induction ps with
  | nil => intro out; simp [writeLoop, fileChars]
  | cons p ps ih =>
    intro out
    rw [writeLoop, ih]
    simp [fileChars, String.data_append]

theorem getline_line (line rest : List Char) (hline : '\n' ∉ line) :
    getline (line ++ '\n' :: rest) = some (line, rest) := by
  induction line with
  | nil => simp [getline]
  | cons c cs ih =>
    have hc : c ≠ '\n' := fun h => hline (by simp [h])
    have hcs : '\n' ∉ cs := fun h => hline (List.mem_cons_of_mem _ h)
    simp [getline, hc, ih hcs]

theorem length_le_fileChars (ps : List String) : ps.length ≤ (fileChars ps).length := by
  induction ps with
  | nil => simp
  | cons p ps ih =>
    simp only [fileChars, List.length_cons, List.length_append]
    omega

theorem getline_rest_length (stream line rest : List Char)
    (h : getline stream = some (line, rest)) : rest.length < stream.length := by
  induction stream generalizing line rest with
  | nil => simp [getline] at h
  | cons c cs ih =>
    simp only [getline] at h
    split at h
    · cases h
      simp
    · cases hg : getline cs with
      | none =>
        rw [hg] at h
        cases h
        simp
      | some lr =>
        obtain ⟨l, r⟩ := lr
        rw [hg] at h
        cases h
        have := ih l rest hg
        simp only [List.length_cons]
        omega

/-- The loop of `loadPlaylistFromFile` does not run out of iterations: any two bounds above the
number of unread characters give the same playlist. -/
theorem readLoop_fuel (fuel1 : Nat) :
    ∀ (fuel2 : Nat) (stream : List Char) (acc : List String), stream.length < fuel1 →
      stream.length < fuel2 → readLoop fuel1 stream acc = readLoop fuel2 stream acc := by
  induction fuel1 with
  | zero => intro fuel2 stream acc h; simp at h
  | succ f ih =>
    intro fuel2 stream acc h1 h2
    cases fuel2 with
    | zero => simp at h2
    | succ g =>
      cases hg : getline stream with
      | none => simp [readLoop, hg]
      | some lr =>
        obtain ⟨line, rest⟩ := lr
        have hlen := getline_rest_length stream line rest hg
        simp only [readLoop, hg]
        split
        · exact ih g rest acc (by omega) (by omega)
        · exact ih g rest _ (by omega) (by omega)

/-- Reading back what `writeLoop` wrote: with enough iterations the loop appends the references,
in order, when none of them is empty or contains a newline. -/
theorem readLoop_fileChars (ps : List String) :
    ∀ (acc : List String) (fuel : Nat), (∀ p ∈ ps, p ≠ "" ∧ '\n' ∉ p.data) →
      ps.length < fuel → readLoop fuel (fileChars ps) acc = acc ++ ps := by
  induction ps with
  | nil =>
    intro acc fuel _ hfuel
    cases fuel with
    | zero => simp at hfuel
    | succ f => simp [readLoop, fileChars, getline]
  | cons p ps ih =>
    intro acc fuel hrefs hfuel
    cases fuel with
    | zero => simp at hfuel
    | succ f =>
      obtain ⟨hne, hnl⟩ := hrefs p (by simp)
      have hdata : p.data ≠ [] := by
        intro h
        apply hne
        cases p
        simp_all
      have hrest : ∀ q ∈ ps, q ≠ "" ∧ '\n' ∉ q.data := fun q hq => hrefs q (by simp [hq])
      have hf : ps.length < f := by simpa using hfuel
      simp only [readLoop, fileChars, getline_line p.data (fileChars ps) hnl]
      have hemp : p.data.isEmpty = false := by
        cases hd : p.data with
        | nil => exact absurd hd hdata
        | cons a l => rfl
      rw [hemp]
      simp only [Bool.false_eq_true, if_false]
      rw [ih (acc ++ [String.mk p.data]) f hrest hf]
      simp

namespace MusicPlayer

/-- C8 fails for a reference that is empty or contains a newline: the reachable player holding
the single reference `""` saves a file holding one newline, which loads as the empty playlist;
the one holding the single reference `a(newline)b` saves a file that loads as the two
references `a` and `b`. -/
theorem save_load_counterexample :
    Reachable (addSong "" init) ∧ (addSong "" init).playlist = [""] ∧
    savePlaylistToFile true (addSong "" init) = (true, some "\n") ∧
    (loadPlaylistFromFile (some "\n") (addSong "" init)).2.playlist = [] ∧
    Reachable (addSong "a\nb" init) ∧ (addSong "a\nb" init).playlist = ["a\nb"] ∧
    savePlaylistToFile true (addSong "a\nb" init) = (true, some "a\nb\n") ∧
    (loadPlaylistFromFile (some "a\nb\n") (addSong "a\nb" init)).2.playlist = ["a", "b"] :=
  ⟨Reachable.step init _ (Call.addSong "") Reachable.init rfl, rfl, by decide, by decide,
   Reachable.step init _ (Call.addSong "a\nb") Reachable.init rfl, rfl, by decide, by decide⟩

/-- C8 as amended: when no reference of the playlist is empty or contains a newline character,
`savePlaylistToFile` on a writable file writes a text from which `loadPlaylistFromFile`, run on
any player, returns `true` and rebuilds the same references in the same order. -/
theorem save_load_round_trip (s t : MusicPlayer)
    (hrefs : ∀ p ∈ s.playlist, p ≠ "" ∧ '\n' ∉ p.data) :
    ∃ text, savePlaylistToFile true s = (true, some text) ∧
      (loadPlaylistFromFile (some text) t).1 = true ∧
      (loadPlaylistFromFile (some text) t).2.playlist = s.playlist := by
  refine ⟨writeLoop s.playlist "", by simp [savePlaylistToFile], rfl, ?_⟩
  have hdata : (writeLoop s.playlist "").data = fileChars s.playlist := by
    rw [writeLoop_data]
    rfl
  simp only [loadPlaylistFromFile, hdata]
  rw [readLoop_fileChars s.playlist [] _ hrefs
    (Nat.lt_succ_of_le (length_le_fileChars s.playlist))]
  rfl

/-- C8 as amended, on the playlist `a.mp3, b.mp3, c.mp3`: the saved text is the three references,
one per line, and loading it into a fresh player gives the same three references. -/
theorem save_load_round_trip_witness :
    (∀ p ∈ threeTracks.playlist, p ≠ "" ∧ '\n' ∉ p.data) ∧
    ∃ text, savePlaylistToFile true threeTracks = (true, some text) ∧
      (loadPlaylistFromFile (some text) init).1 = true ∧
      (loadPlaylistFromFile (some text) init).2.playlist = ["a.mp3", "b.mp3", "c.mp3"] :=
  ⟨by decide, save_load_round_trip threeTracks init (by decide)⟩

end MusicPlayer

/-! ## A successful load -/

theorem getline_eq_none (stream : List Char) (h : getline stream = none) : stream = [] := by
  cases stream with
  | nil => rfl
  | cons c cs =>
    simp only [getline] at h
    split at h
    · cases h
    · cases hg : getline cs with
      | none => rw [hg] at h; cases h
      | some lr => rw [hg] at h; cases h

/-- One `getline` call splits off the first piece of the stream cut at newlines; what is left
holds the same non-empty pieces as the rest of the cut. -/
theorem getline_splitOn (stream : List Char) :
    ∀ line rest, getline stream = some (line, rest) →
      ∃ tail, stream.splitOn '\n' = line :: tail ∧
        tail.filter (fun l => !l.isEmpty) = (rest.splitOn '\n').filter (fun l => !l.isEmpty) := by
  induction stream with
  | nil => intro line rest h; simp [getline] at h
  | cons c cs ih =>
    intro line rest h
    simp only [getline] at h
    by_cases hc : c = '\n'
    · rw [if_pos hc] at h
      cases h
      refine ⟨cs.splitOn '\n', ?_, rfl⟩
      simp [List.splitOn, List.splitOnP_cons, hc]
    · rw [if_neg hc] at h
      cases hg : getline cs with
      | none =>
        rw [hg] at h
        cases h
        have hnil := getline_eq_none cs hg
        subst hnil
        refine ⟨[], ?_, ?_⟩
        · simp [List.splitOn, List.splitOnP_cons, hc, List.splitOnP_nil, List.modifyHead]
        · simp [List.splitOn, List.splitOnP_nil]
      | some lr =>
        obtain ⟨l, r⟩ := lr
        rw [hg] at h
        cases h
        obtain ⟨tail, h1, h2⟩ := ih l rest hg
        refine ⟨tail, ?_, h2⟩
        simp only [List.splitOn] at h1 ⊢
        rw [List.splitOnP_cons, h1]
        simp [hc, List.modifyHead]

/-- With enough iterations the loop of `loadPlaylistFromFile` appends exactly the non-empty
pieces of the stream cut at newlines. -/
theorem readLoop_splitOn (fuel : Nat) :
    ∀ (stream : List Char) (acc : List String), stream.length < fuel →
      readLoop fuel stream acc
        = acc ++ ((stream.splitOn '\n').filter (fun l => !l.isEmpty)).map String.mk := by
  induction fuel with
  | zero => intro stream acc h; simp at h
  | succ f ih =>
    intro stream acc h
    cases hg : getline stream with
    | none =>
      have hnil := getline_eq_none stream hg
      subst hnil
      simp [readLoop, getline, List.splitOn, List.splitOnP_nil]
    | some lr =>
      obtain ⟨line, rest⟩ := lr
      have hlen := getline_rest_length stream line rest hg
      obtain ⟨tail, h1, h2⟩ := getline_splitOn stream line rest hg
      simp only [readLoop, hg]
      rw [h1]
      by_cases he : line.isEmpty = true
      · rw [if_pos he, ih rest acc (by omega)]
        simp [List.filter, he, h2]
      · rw [if_neg he, ih rest _ (by omega)]
        simp [List.filter, he, h2]

namespace MusicPlayer

/-- C11: for every prior state and every readable file, `loadPlaylistFromFile` returns `true`;
the new playlist is the sequence of non-empty lines of the file, verbatim and in file order,
whatever the playlist held before; `currentIndex` is 0 when that sequence is non-empty and -1
otherwise; handle, volume and loop flag are not touched. Blanks and tabs are kept as they are. -/
theorem loadPlaylistFromFile_success (content : String) (s : MusicPlayer) :
    loadPlaylistFromFile (some content) s =
      (true, { s with
        playlist := specNonEmptyLines content,
        currentIndex := if specNonEmptyLines content = [] then -1 else 0 }) ∧
    specNonEmptyLines " a.mp3 \n\n\tb.mp3\n\nc d.mp3" = [" a.mp3 ", "\tb.mp3", "c d.mp3"] := by
  constructor
  · have hread : readLoop (content.data.length + 1) content.data [] = specNonEmptyLines content := by
      rw [readLoop_splitOn _ _ _ (Nat.lt_succ_self _)]
      rfl
    simp only [loadPlaylistFromFile, hread]
    cases h : specNonEmptyLines content <;> simp
  · decide

end MusicPlayer

namespace MusicPlayer

/-! ## `play` -/

theorem staleTrack_reachable : Reachable staleTrack :=
  reachable_run staleTrackCalls init staleTrack Reachable.init (by decide)

theorem staleEmpty_reachable : Reachable staleEmpty :=
  reachable_run staleEmptyCalls init staleEmpty Reachable.init (by decide)

/-- The method `play` always completes: the handle it plays is either the one already loaded or
the one its own `openTrack` call has just loaded. -/
theorem play_isSome (openFromFile : String → Bool) (s : MusicPlayer) :
    ∃ s1, play openFromFile s = some s1 := by
  unfold play
  cases hm : s.music with
  | none =>
    simp only
    split
    · split
      · exact ⟨_, rfl⟩
      · obtain ⟨s2, h, _⟩ := thenPlay_openTrack openFromFile s 0
        exact ⟨s2, h⟩
    · obtain ⟨s2, h, _⟩ := thenPlay_openTrack openFromFile s s.currentIndex
      exact ⟨s2, h⟩
  | some m =>
    exact ⟨_, musicPlay_of_loaded s m hm⟩

/-- C12: `play` on an empty playlist is to report `No songs in playlist.`, create no handle and
start no playback. The code does not do so on the reachable player left by `addSong("a.mp3")`,
`play()` and the load of an empty playlist file, where the load has kept the handle: the playlist
is empty, yet `play` writes nothing to the console and calls `play` on the handle that was opened
on `a.mp3`. -/
theorem play_empty_counterexample :
    Reachable staleEmpty ∧ staleEmpty.playlist = [] ∧
    play opensAll staleEmpty =
      some { staleEmpty with
        music := some ⟨some "a.mp3", 100, false, Status.Playing⟩
        trace := staleEmpty.trace ++ [Event.musicPlay] } :=
  ⟨staleEmpty_reachable, rfl, by decide⟩

/-- On a reachable state whose playlist is empty and where no handle is loaded, `play` writes `No songs in playlist.` to the console and does nothing else: no `sf::Music` object
is created, nothing is played, no handle is loaded afterwards and every data member is as
before. -/
theorem play_empty_idle (openFromFile : String → Bool) (s : MusicPlayer) (hr : Reachable s)
    (hnil : s.playlist = []) (hm : s.music = none) :
    play openFromFile s = some { s with trace := s.trace ++ [Event.cout "No songs in playlist.\n"] } := by
  have hcur : s.currentIndex = -1 := by
    rcases reachable_cursorInv s hr with ⟨_, hc⟩ | ⟨h0, h1⟩
    · exact hc
    · rw [hnil] at h1
      simp at h1
      omega
  simp [play, hm, hcur, hnil, emit]

/-- On the default-constructed player `play` only writes `No songs in playlist.`. -/
theorem play_empty_idle_witness :
    Reachable init ∧ init.playlist = [] ∧ init.music = none ∧
    play opensAll init = some { init with trace := [Event.cout "No songs in playlist.\n"] } :=
  ⟨Reachable.init, rfl, rfl, play_empty_idle opensAll init Reachable.init rfl rfl⟩

/-- C13: on a reachable state with no handle loaded and a non-empty playlist, `play` runs
`openTrack(currentIndex)`. When that returns `true`, the handle opened on
`playlist[currentIndex]` is loaded and playing and the cursor is unchanged; when it returns
`false`, no handle is loaded, `play` was called on nothing and the cursor is unchanged. On no
state at all does `play` dereference a null handle. -/
theorem play_idle_nonempty (openFromFile : String → Bool) (s : MusicPlayer) :
    (Reachable s → s.music = none → s.playlist ≠ [] →
      play openFromFile s = thenPlay (openTrack openFromFile s s.currentIndex) ∧
      (opened (openTrack openFromFile s s.currentIndex) = true →
        ∃ s1 m ref, play openFromFile s = some s1 ∧ s1.currentIndex = s.currentIndex ∧
          s.playlist[s.currentIndex.toNat]? = some ref ∧ s1.playlist = s.playlist ∧
          s1.music = some m ∧ m.source = some ref ∧ m.status = Status.Playing ∧
          s1.trace = s.trace ++ [Event.musicNew, Event.musicOpenFromFile ref true,
            Event.musicSetVolume s.volume, Event.musicSetLoop s.looping, Event.musicPlay]) ∧
      (opened (openTrack openFromFile s s.currentIndex) = false →
        ∃ s1 ref, play openFromFile s = some s1 ∧ s1.currentIndex = s.currentIndex ∧
          s.playlist[s.currentIndex.toNat]? = some ref ∧ s1.playlist = s.playlist ∧
          s1.music = none ∧
          s1.trace = s.trace ++ [Event.musicNew, Event.musicOpenFromFile ref false,
            Event.cerr ("Failed to open: " ++ ref ++ "\n"), Event.musicDelete])) ∧
    play openFromFile s ≠ none := by
  constructor
  · intro hr hm hne
    have hcur : 0 ≤ s.currentIndex ∧ s.currentIndex < (s.playlist.length : Int) := by
      rcases reachable_cursorInv s hr with ⟨hnil, _⟩ | h
      · exact absurd hnil hne
      · exact h
    obtain ⟨h0, h1⟩ := hcur
    have hne1 : s.currentIndex ≠ -1 := by omega
    have hplay : play openFromFile s = thenPlay (openTrack openFromFile s s.currentIndex) := by
      simp [play, hm, hne1]
    have hrel : release s = s := by simp [release, hm]
    have hlt : s.currentIndex.toNat < s.playlist.length := by omega
    have href : s.playlist[s.currentIndex.toNat]? = some (s.playlist[s.currentIndex.toNat]) :=
      List.getElem?_eq_getElem hlt
    refine ⟨hplay, ?_, ?_⟩
    · intro ho
      obtain ⟨ref, href', _, hp⟩ := thenPlay_openTrack_opened openFromFile s s.currentIndex ho
      rw [hrel] at hp
      exact ⟨_, _, ref, hplay.trans hp, rfl, href', rfl, rfl, rfl, rfl, rfl⟩
    · intro ho
      rw [hplay]
      rw [openTrack_in_range openFromFile s s.currentIndex _ h0 h1 href] at ho ⊢
      by_cases hb : openFromFile (s.playlist[s.currentIndex.toNat]) = false
      · rw [if_pos hb, hrel]
        exact ⟨_, _, rfl, rfl, href, rfl, rfl, rfl⟩
      · rw [if_neg hb] at ho
        simp [opened] at ho
  · obtain ⟨s1, h⟩ := play_isSome openFromFile s
    rw [h]
    exact Option.some_ne_none s1

/-- C13 on the player holding `a.mp3` with nothing loaded: under a backend that opens everything
`play` leaves `a.mp3` playing with the cursor on 0. -/
theorem play_idle_nonempty_witness :
    Reachable oneTrack ∧ oneTrack.music = none ∧ oneTrack.playlist ≠ [] ∧
    ∃ s1 m, play opensAll oneTrack = some s1 ∧ s1.currentIndex = 0 ∧
      s1.music = some m ∧ m.source = some "a.mp3" ∧ m.status = Status.Playing := by
  refine ⟨oneTrack_reachable, rfl, by decide, ?_⟩
  obtain ⟨s1, m, ref, h1, h2, h3, _, h5, h6, h7, _⟩ :=
    ((play_idle_nonempty opensAll oneTrack).1 oneTrack_reachable rfl (by decide)).2.1
      (by decide)
  have hrefa : ref = "a.mp3" := by
    have h : oneTrack.playlist[oneTrack.currentIndex.toNat]? = some "a.mp3" := by decide
    rw [h] at h3
    exact (Option.some.inj h3).symm
  exact ⟨s1, m, h1, h2, h5, hrefa ▸ h6, h7⟩

end MusicPlayer

namespace MusicPlayer

/-! ## The cursor invariant, `addSong`, and the transport and loop methods -/

/-- C14: in every state reachable from the default-constructed player by calls of the public
methods, with any file contents and any open outcomes, an empty playlist has `currentIndex = -1`
and a non-empty playlist has `currentIndex` equal to -1 or a valid index; in fact on a non-empty
playlist it is always a valid index. -/
theorem cursor_invariant (s : MusicPlayer) (hr : Reachable s) :
    (s.playlist = [] → s.currentIndex = -1) ∧
    (s.playlist ≠ [] →
      s.currentIndex = -1 ∨ (0 ≤ s.currentIndex ∧ s.currentIndex < (s.playlist.length : Int))) ∧
    (s.playlist ≠ [] → 0 ≤ s.currentIndex ∧ s.currentIndex < (s.playlist.length : Int)) := by
  have hinv := reachable_cursorInv s hr
  have hvalid : s.playlist ≠ [] →
      0 ≤ s.currentIndex ∧ s.currentIndex < (s.playlist.length : Int) := by
    intro hne
    rcases hinv with ⟨hnil, _⟩ | h
    · exact absurd hnil hne
    · exact h
  refine ⟨?_, fun hne => Or.inr (hvalid hne), hvalid⟩
  intro hnil
  rcases hinv with ⟨_, hc⟩ | ⟨h0, h1⟩
  · exact hc
  · rw [hnil] at h1
    simp at h1
    omega

/-- C14 on two reachable players: the one holding three tracks with cursor 2, and the one left
with an empty playlist and cursor -1 after loading an empty file. -/
theorem cursor_invariant_witness :
    Reachable threeTracks ∧
    (0 ≤ threeTracks.currentIndex ∧
      threeTracks.currentIndex < (threeTracks.playlist.length : Int)) ∧
    Reachable staleEmpty ∧ staleEmpty.currentIndex = -1 :=
  ⟨threeTracks_reachable,
   (cursor_invariant threeTracks threeTracks_reachable).2.2 (by decide),
   staleEmpty_reachable,
   (cursor_invariant staleEmpty staleEmpty_reachable).1 rfl⟩

/-- C16: after `addSong(ref)` the playlist is the old playlist followed by `ref`: one entry
longer, every old position holds what it held, the last position holds `ref`, and a reference
already present is appended again; `currentIndex` is 0 if it was -1 and unchanged otherwise;
handle, volume, loop flag and trace are untouched. -/
theorem addSong_appends (ref : String) (s : MusicPlayer) :
    (addSong ref s).playlist = s.playlist ++ [ref] ∧
    (addSong ref s).playlist.length = s.playlist.length + 1 ∧
    (∀ i, i < s.playlist.length → (addSong ref s).playlist[i]? = s.playlist[i]?) ∧
    (addSong ref s).playlist[s.playlist.length]? = some ref ∧
    (addSong ref (addSong ref s)).playlist = s.playlist ++ [ref, ref] ∧
    (s.currentIndex = -1 → (addSong ref s).currentIndex = 0) ∧
    (s.currentIndex ≠ -1 → (addSong ref s).currentIndex = s.currentIndex) ∧
    (addSong ref s).music = s.music ∧
    (addSong ref s).volume = s.volume ∧
    (addSong ref s).looping = s.looping ∧
    (addSong ref s).trace = s.trace := by
  refine ⟨rfl, by simp [addSong], ?_, by simp [addSong], by simp [addSong], ?_, ?_,
    rfl, rfl, rfl, rfl⟩
  · intro i hi
    simp [addSong, List.getElem?_append_left hi]
  · intro h
    simp [addSong, h]
  · intro h
    simp [addSong, h]

/-- C16 on the default-constructed player and on the three-track player: the first `addSong`
sets the cursor to 0, a later one leaves the cursor and the loaded handle alone. -/
theorem addSong_appends_witness :
    (addSong "a.mp3" init).playlist = ["a.mp3"] ∧ (addSong "a.mp3" init).currentIndex = 0 ∧
    (addSong "a.mp3" threeTracks).playlist = ["a.mp3", "b.mp3", "c.mp3", "a.mp3"] ∧
    (addSong "a.mp3" threeTracks).currentIndex = 2 :=
  ⟨(addSong_appends "a.mp3" init).1,
   (addSong_appends "a.mp3" init).2.2.2.2.2.1 rfl,
   (addSong_appends "a.mp3" threeTracks).1,
   (addSong_appends "a.mp3" threeTracks).2.2.2.2.2.2.1 (by decide)⟩

/-- C18: with no handle loaded `pause` and `stop` change nothing at all. With a handle loaded,
`pause`, `stop` and `play` make exactly one call on that handle (`pause`, `stop`, `play`): the
handle stays loaded with its reference, volume and loop flag, nothing is deleted, created or
opened, and `playlist`, `currentIndex`, `volume` and `looping` are unchanged. -/
theorem transport_only (openFromFile : String → Bool) (s : MusicPlayer) :
    (s.music = none → pause s = s ∧ stop s = s) ∧
    (∀ m, s.music = some m →
      pause s = { s with music := some m.pause, trace := s.trace ++ [Event.musicPause] } ∧
      stop s = { s with music := some m.stop, trace := s.trace ++ [Event.musicStop] } ∧
      play openFromFile s
        = some { s with music := some m.play, trace := s.trace ++ [Event.musicPlay] } ∧
      (m.pause.source = m.source ∧ m.pause.volume = m.volume ∧ m.pause.loop = m.loop) ∧
      (m.stop.source = m.source ∧ m.stop.volume = m.volume ∧ m.stop.loop = m.loop ∧
        m.stop.status = Status.Stopped) ∧
      (m.play.source = m.source ∧ m.play.volume = m.volume ∧ m.play.loop = m.loop ∧
        m.play.status = Status.Playing)) := by
  constructor
  · intro hm
    simp [pause, stop, hm]
  · intro m hm
    refine ⟨by simp [pause, hm], by simp [stop, hm], ?_, ⟨rfl, rfl, rfl⟩, ⟨rfl, rfl, rfl, rfl⟩,
      ⟨rfl, rfl, rfl, rfl⟩⟩
    simp [play, hm, musicPlay]

/-- C18 on the three-track player with `c.mp3` loaded: `stop` keeps the handle loaded, `play`
does not reopen it, and on the default-constructed player `pause` and `stop` do nothing. -/
theorem transport_only_witness :
    (stop threeTracks).music = some ⟨some "c.mp3", 100, false, Status.Stopped⟩ ∧
    (stop threeTracks).currentIndex = 2 ∧
    (play opensAll threeTracks).map MusicPlayer.music
      = some (some ⟨some "c.mp3", 100, false, Status.Playing⟩) ∧
    pause init = init ∧ stop init = init := by
  have h := (transport_only opensAll threeTracks).2 _ rfl
  have h0 := (transport_only opensAll init).1 rfl
  refine ⟨?_, ?_, ?_, h0.1, h0.2⟩
  · rw [h.2.1]
    rfl
  · rw [h.2.1]
    rfl
  · rw [h.2.2.1]
    rfl

/-- C19: after `toggleLoop` the loop flag is the negation of what it was, the console line
reports the new value (`ON` for true, `OFF` for false) and is the last thing done, a loaded
handle stays loaded with its loop flag set to the new value, and `playlist`, `currentIndex` and
`volume` are unchanged. Two calls in a row give back the original flag on the player, and a loaded
handle ends with that original flag. -/
theorem toggleLoop_flips (s : MusicPlayer) :
    (toggleLoop s).looping = !s.looping ∧
    (toggleLoop s).music = s.music.map (fun m => { m with loop := !s.looping }) ∧
    (toggleLoop s).trace =
      s.trace ++ (if s.music.isSome then [Event.musicSetLoop (!s.looping)] else []) ++
        [Event.cout ("Looping is now " ++ (if (!s.looping) = true then "ON" else "OFF") ++ "\n")] ∧
    (toggleLoop s).playlist = s.playlist ∧
    (toggleLoop s).currentIndex = s.currentIndex ∧
    (toggleLoop s).volume = s.volume ∧
    (toggleLoop (toggleLoop s)).looping = s.looping ∧
    (toggleLoop (toggleLoop s)).music = s.music.map (fun m => { m with loop := s.looping }) := by
  have h1 : ∀ t : MusicPlayer, (toggleLoop t).looping = !t.looping := by
    intro t
    unfold toggleLoop
    cases hm : t.music <;> simp [emit]
  have h2 : ∀ t : MusicPlayer,
      (toggleLoop t).music = t.music.map (fun m => { m with loop := !t.looping }) := by
    intro t
    unfold toggleLoop
    cases hm : t.music <;> simp [emit, Music.setLoop]
  refine ⟨h1 s, h2 s, ?_, ?_, ?_, ?_, ?_, ?_⟩
  · unfold toggleLoop
    cases hm : s.music <;> simp [emit]
  · unfold toggleLoop
    cases hm : s.music <;> simp [emit]
  · unfold toggleLoop
    cases hm : s.music <;> simp [emit]
  · unfold toggleLoop
    cases hm : s.music <;> simp [emit]
  · rw [h1, h1]
    simp
  · rw [h2, h1, h2]
    cases hm : s.music <;> simp

end MusicPlayer

namespace MusicPlayer

/-! ## Configuration consistency -/

/-- After `openTrack` the stored volume and loop flag are as before, and the handle is the one
that was loaded before (index out of range), absent (failed open), or a new one carrying the
stored volume and loop flag. -/
theorem openTrack_music (openFromFile : String → Bool) (s : MusicPlayer) (index : Int) :
    ∃ r s1, openTrack openFromFile s index = some (r, s1) ∧
      s1.volume = s.volume ∧ s1.looping = s.looping ∧
      (s1.music = s.music ∨ s1.music = none ∨
        ∃ ref, s1.music = some ⟨some ref, s.volume, s.looping, Status.Stopped⟩) := by
  by_cases h : index < 0 ∨ index ≥ (s.playlist.length : Int)
  · exact ⟨false, s, by simp [openTrack, h], rfl, rfl, Or.inl rfl⟩
  · have h0 : 0 ≤ index := by omega
    have h1 : index < (s.playlist.length : Int) := by omega
    have hlt : index.toNat < s.playlist.length := by omega
    have href : s.playlist[index.toNat]? = some (s.playlist[index.toNat]) :=
      List.getElem?_eq_getElem hlt
    rw [openTrack_in_range openFromFile s index _ h0 h1 href]
    by_cases hb : openFromFile (s.playlist[index.toNat]) = false
    · rw [if_pos hb]
      exact ⟨false, _, rfl, release_volume s, release_looping s, Or.inr (Or.inl rfl)⟩
    · rw [if_neg hb]
      exact ⟨true, _, rfl, release_volume s, release_looping s, Or.inr (Or.inr ⟨_, rfl⟩)⟩

theorem configInv_of_thenPlay (openFromFile : String → Bool) (s s2 : MusicPlayer) (index : Int)
    (hinv : ConfigInv s) (h : thenPlay (openTrack openFromFile s index) = some s2) :
    ConfigInv s2 := by
  obtain ⟨r, s1, ho, hv, hl, hm⟩ := openTrack_music openFromFile s index
  obtain ⟨hvr, hcfg⟩ := hinv
  rw [ho] at h
  cases r with
  | false =>
    simp only [thenPlay, Option.some.injEq] at h
    subst h
    refine ⟨by rw [hv]; exact hvr, ?_⟩
    intro m hm1
    rw [hv, hl]
    rcases hm with hm | hm | ⟨ref, hm⟩
    · exact hcfg m (hm ▸ hm1)
    · rw [hm] at hm1
      cases hm1
    · rw [hm] at hm1
      cases hm1
      exact ⟨rfl, rfl⟩
  | true =>
    simp only [thenPlay, musicPlay] at h
    cases hm1 : s1.music with
    | none => simp [hm1] at h
    | some m1 =>
      simp only [hm1, Option.some.injEq] at h
      subst h
      refine ⟨by
        show FloatVal.inRange s1.volume ∨ s1.volume = FloatVal.nan
        rw [hv]
        exact hvr, ?_⟩
      intro m hm2
      simp only [Option.some.injEq] at hm2
      subst hm2
      show m1.volume = s1.volume ∧ m1.loop = s1.looping
      rw [hv, hl]
      rcases hm with hm | hm | ⟨ref, hm⟩
      · exact hcfg m1 (hm ▸ hm1)
      · rw [hm] at hm1
        cases hm1
      · rw [hm] at hm1
        cases hm1
        exact ⟨rfl, rfl⟩

/-- The value `std::clamp(v, 0, 100)` lies in `[0, 100]` unless `v` is NaN, and then it is NaN. -/
theorem clamp_inRange_or_nan (v : FloatVal) :
    FloatVal.inRange (clamp v 0 100) ∨ clamp v 0 100 = FloatVal.nan := by
  cases v with
  | nan => exact Or.inr clamp_nan
  | negInf =>
    left
    rw [clamp_negInf, floatVal_zero]
    exact ⟨le_refl _, by norm_num⟩
  | num q =>
    left
    rw [clamp_num]
    exact ⟨le_max_left _ _, max_le (by norm_num) (min_le_left _ _)⟩
  | posInf =>
    left
    rw [clamp_posInf, floatVal_hundred]
    exact ⟨by norm_num, le_refl _⟩

theorem configInv_step (s s1 : MusicPlayer) (c : Call) (hinv : ConfigInv s)
    (h : step s c = some s1) : ConfigInv s1 := by
  cases c with
  | loadPlaylistFromFile file =>
    simp only [step, Option.some.injEq] at h
    subst h
    cases file with
    | none => exact hinv
    | some content => exact hinv
  | savePlaylistToFile w =>
    simp only [step, Option.some.injEq] at h
    subst h
    exact hinv
  | addSong path =>
    simp only [step, Option.some.injEq] at h
    subst h
    exact hinv
  | openTrack openFromFile index =>
    obtain ⟨r, s1', ho, hv, hl, hm⟩ := openTrack_music openFromFile s index
    simp only [step, ho, Option.map_some', Option.some.injEq] at h
    subst h
    obtain ⟨hvr, hcfg⟩ := hinv
    refine ⟨by rw [hv]; exact hvr, ?_⟩
    intro m hm1
    rw [hv, hl]
    rcases hm with hm | hm | ⟨ref, hm⟩
    · exact hcfg m (hm ▸ hm1)
    · rw [hm] at hm1
      cases hm1
    · rw [hm] at hm1
      cases hm1
      exact ⟨rfl, rfl⟩
  | play openFromFile =>
    simp only [step, play] at h
    cases hm : s.music with
    | none =>
      simp only [hm] at h
      split at h
      · split at h
        · cases h
          exact hinv
        · exact configInv_of_thenPlay openFromFile s s1 0 hinv h
      · exact configInv_of_thenPlay openFromFile s s1 s.currentIndex hinv h
    | some m =>
      simp only [hm] at h
      rw [musicPlay_of_loaded s m hm] at h
      cases h
      obtain ⟨hvr, hcfg⟩ := hinv
      refine ⟨hvr, ?_⟩
      intro m' hm'
      simp only [Option.some.injEq] at hm'
      subst hm'
      exact hcfg m hm
  | pause =>
    simp only [step, Option.some.injEq] at h
    subst h
    obtain ⟨hvr, hcfg⟩ := hinv
    unfold pause
    cases hm : s.music with
    | none => exact ⟨hvr, fun m' hm' => hcfg m' (hm ▸ hm')⟩
    | some m =>
      refine ⟨hvr, ?_⟩
      intro m' hm'
      simp only [Option.some.injEq] at hm'
      subst hm'
      exact hcfg m hm
  | stop =>
    simp only [step, Option.some.injEq] at h
    subst h
    obtain ⟨hvr, hcfg⟩ := hinv
    unfold stop
    cases hm : s.music with
    | none => exact ⟨hvr, fun m' hm' => hcfg m' (hm ▸ hm')⟩
    | some m =>
      refine ⟨hvr, ?_⟩
      intro m' hm'
      simp only [Option.some.injEq] at hm'
      subst hm'
      exact hcfg m hm
  | next openFromFile =>
    simp only [step, next] at h
    split at h
    · cases h
      exact hinv
    · split at h
      · cases h
      · exact configInv_of_thenPlay openFromFile s s1 _ hinv h
  | previous openFromFile =>
    simp only [step, previous] at h
    split at h
    · cases h
      exact hinv
    · split at h
      · cases h
      · exact configInv_of_thenPlay openFromFile s s1 _ hinv h
  | setVolume v =>
    simp only [step, Option.some.injEq] at h
    subst h
    obtain ⟨_, hcfg⟩ := hinv
    unfold setVolume
    cases hm : s.music with
    | none =>
      refine ⟨clamp_inRange_or_nan v, ?_⟩
      intro m' hm'
      simp [hm] at hm'
    | some m =>
      refine ⟨clamp_inRange_or_nan v, ?_⟩
      intro m' hm'
      simp only [hm, Option.some.injEq] at hm'
      subst hm'
      exact ⟨rfl, (hcfg m hm).2⟩
  | toggleLoop =>
    simp only [step, Option.some.injEq] at h
    subst h
    obtain ⟨hvr, hcfg⟩ := hinv
    unfold toggleLoop
    cases hm : s.music with
    | none =>
      refine ⟨hvr, ?_⟩
      intro m' hm'
      simp [hm, emit] at hm'
    | some m =>
      refine ⟨hvr, ?_⟩
      intro m' hm'
      simp only [hm, emit, Option.some.injEq] at hm'
      subst hm'
      exact ⟨(hcfg m hm).1, rfl⟩
  | printPlaylist =>
    simp only [step, Option.some.injEq] at h
    subst h
    exact hinv
  | printStatus showFloat =>
    simp only [step, Option.some.injEq] at h
    subst h
    exact hinv

/-- Every reachable state has a stored volume in `[0, 100]` or NaN, and a loaded handle that
carries the stored volume and loop flag. -/
theorem reachable_configInv (s : MusicPlayer) (h : Reachable s) : ConfigInv s := by
  induction h with
  | init =>
    refine ⟨Or.inl ?_, ?_⟩
    · show FloatVal.inRange (100 : FloatVal)
      rw [floatVal_hundred]
      exact ⟨by norm_num, le_refl _⟩
    · intro m hm
      cases hm
  | step s s1 c _ hstep ih => exact configInv_step s s1 c ih hstep

/-- C20: in every reachable state the stored volume is to lie in `[0, 100]`. The code does not
keep that: `setVolume(NaN)`, which the command loop performs on the volume input `nan`, stores
NaN: the default-constructed player after that call,
and the three-track player with `c.mp3` loaded after it, are reachable and hold a volume that is
not in `[0, 100]`; the loaded handle was handed the same NaN. -/
theorem volume_nan_reachable :
    Reachable (setVolume FloatVal.nan init) ∧
    (setVolume FloatVal.nan init).volume = FloatVal.nan ∧
    ¬ FloatVal.inRange (setVolume FloatVal.nan init).volume ∧
    Reachable (setVolume FloatVal.nan threeTracks) ∧
    (setVolume FloatVal.nan threeTracks).volume = FloatVal.nan ∧
    (setVolume FloatVal.nan threeTracks).music
      = some ⟨some "c.mp3", FloatVal.nan, false, Status.Stopped⟩ :=
  ⟨Reachable.step init _ (Call.setVolume FloatVal.nan) Reachable.init rfl, rfl, fun h => h,
   Reachable.step threeTracks _ (Call.setVolume FloatVal.nan) threeTracks_reachable rfl, rfl,
   rfl⟩

end MusicPlayer

namespace MusicPlayer

/-! ## The loaded handle and the status line -/

/-- C15 does not hold of the code: `loadPlaylistFromFile` replaces the playlist and resets the
cursor without releasing the handle. After `addSong("a.mp3")`, `play()` and the load of a file
holding the line `x.mp3`, the loaded handle is the one opened on `a.mp3` while the track at the
cursor is `x.mp3`; after the load of an empty file instead, the handle is still loaded while
`currentIndex` is -1, not a valid index. -/
theorem stale_handle_after_load :
    run staleTrackCalls init = some staleTrack ∧ Reachable staleTrack ∧
    staleTrack.music = some ⟨some "a.mp3", 100, false, Status.Playing⟩ ∧
    staleTrack.currentIndex = 0 ∧
    subscript staleTrack.playlist staleTrack.currentIndex = some "x.mp3" ∧
    run staleEmptyCalls init = some staleEmpty ∧ Reachable staleEmpty ∧
    staleEmpty.music = some ⟨some "a.mp3", 100, false, Status.Playing⟩ ∧
    staleEmpty.currentIndex = -1 ∧ staleEmpty.playlist = [] :=
  ⟨by decide, staleTrack_reachable, rfl, rfl, by decide,
   by decide, staleEmpty_reachable, rfl, rfl, rfl⟩

/-- C17: with a handle loaded the status line is to hold the status, the track reference, the
volume and the loop flag. The code does not print the track on the reachable player left by
`addSong("a.mp3")`, `play()` and the load of an empty playlist file, where the load has kept the
handle while the cursor is -1: the line has the status, volume and loop fields and no track
field. -/
theorem printStatus_counterexample :
    Reachable staleEmpty ∧
    staleEmpty.music = some ⟨some "a.mp3", 100, false, Status.Playing⟩ ∧
    printStatus showHundred staleEmpty = "Status: Playing | Volume: 100 | Loop: No\n" :=
  ⟨staleEmpty_reachable, rfl, by decide⟩

/-- With no handle loaded the status line is `Status: No track loaded` and
nothing else; with a handle loaded it holds the status of the handle (`Stopped`, `Paused` or
`Playing`), the volume and the loop flag, and, when `currentIndex` is a valid index, the reference
`playlist[currentIndex]` between the status and the volume. Printing it changes no data member:
the text goes to the console and every field is as before. -/
theorem printStatus_report (showFloat : FloatVal → String) (s : MusicPlayer) :
    (s.music = none → printStatus showFloat s = "Status: No track loaded\n") ∧
    (∀ m ref, s.music = some m → 0 ≤ s.currentIndex →
      s.currentIndex < (s.playlist.length : Int) →
      s.playlist[s.currentIndex.toNat]? = some ref →
      printStatus showFloat s =
        "Status: " ++ (statusToString m.status ++ " | Track: " ++ ref ++ " | Volume: "
          ++ showFloat s.volume ++ " | Loop: " ++ (if s.looping then "Yes" else "No") ++ "\n")) ∧
    (∀ m, s.music = some m → ∃ track,
      printStatus showFloat s =
        "Status: " ++ (statusToString m.status ++ track ++ " | Volume: "
          ++ showFloat s.volume ++ " | Loop: " ++ (if s.looping then "Yes" else "No") ++ "\n")) ∧
    (∀ st, statusToString st = "Stopped" ∨ statusToString st = "Paused" ∨
      statusToString st = "Playing") ∧
    step s (Call.printStatus showFloat)
      = some { s with trace := s.trace ++ [Event.cout (printStatus showFloat s)] } := by
  refine ⟨?_, ?_, ?_, ?_, rfl⟩
  · intro hm
    simp [printStatus, hm]
  · intro m ref hm h0 h1 href
    have hsub : subscript s.playlist s.currentIndex = some ref := by
      rw [subscript_of_nonneg _ _ h0, href]
    simp [printStatus, hm, h0, h1, hsub, String.append_assoc]
  · intro m hm
    refine ⟨if s.currentIndex ≥ 0 ∧ s.currentIndex < (s.playlist.length : Int) then
      " | Track: " ++ (subscript s.playlist s.currentIndex).getD "" else "", ?_⟩
    simp [printStatus, hm]
  · intro st
    cases st <;> simp [statusToString]

/-- The status line of the three-track player with `c.mp3` loaded and of the default-constructed
player. -/
theorem printStatus_report_witness :
    printStatus showHundred threeTracks
      = "Status: Stopped | Track: c.mp3 | Volume: 100 | Loop: No\n" ∧
    printStatus showHundred init = "Status: No track loaded\n" := by
  have h := (printStatus_report showHundred threeTracks).2.1 _ "c.mp3" rfl (by decide)
    (by decide) (by decide)
  have h0 := (printStatus_report showHundred init).1 rfl
  refine ⟨?_, h0⟩
  rw [h]
  decide

end MusicPlayer

namespace MusicPlayer

/-! ## The index sum of `previous` in 32-bit arithmetic -/

theorem repeated_reachable (ref : String) : ∀ n, Reachable (repeated ref n) := by
  intro n
  induction n with
  | zero => exact Reachable.step init _ (Call.addSong ref) Reachable.init rfl
  | succ n ih =>
    refine Reachable.step (repeated ref n) _ (Call.addSong ref) ih ?_
    simp only [step, addSong, repeated, Option.some.injEq]
    rw [← List.replicate_succ' (n + 1) ref]
    rfl

theorem lastOf_reachable (n : Nat) : Reachable (lastOf n) := by
  refine Reachable.step (repeated "a.mp3" n) (lastOf n)
    (Call.openTrack opensAll (n : Int)) (repeated_reachable "a.mp3" n) ?_
  have hlen : (repeated "a.mp3" n).playlist.length = n + 1 := by
    simp [repeated]
  have h1 : (n : Int) < ((repeated "a.mp3" n).playlist.length : Int) := by
    rw [hlen]
    push_cast
    omega
  have href : (repeated "a.mp3" n).playlist[(n : Int).toNat]? = some "a.mp3" := by
    have hlt : (n : Int).toNat < n + 1 := by
      simp
    exact List.getElem?_replicate_of_lt hlt
  have ho := openTrack_in_range opensAll (repeated "a.mp3" n) (n : Int) "a.mp3"
    (by omega) h1 href
  simp only [step, ho]
  rfl

/-- C2: on every reachable state with a non-empty playlist `previous` is to hand `%` a
non-negative operand and to compute an index in `[0, size)`. The code does not once the playlist
has more than 2^30 tracks: on the reachable player with 1073741825 tracks and the cursor on the
last one, 1073741824, the sum `currentIndex - 1 + size` is 2147483648, one more than `INT_MAX`;
held in a 32-bit `int` that is -2147483648, a negative operand for `%`, and the computed index is
-1073741823, outside `[0, size)`. -/
theorem previous_int_overflow :
    Reachable (lastOf 1073741824) ∧ (lastOf 1073741824).playlist.length = 1073741825 ∧
    (lastOf 1073741824).currentIndex = 1073741824 ∧
    (lastOf 1073741824).currentIndex - 1 + ((lastOf 1073741824).playlist.length : Int)
      = 2147483648 ∧
    wrapInt32 (wrapInt32 ((lastOf 1073741824).currentIndex - 1)
      + ((lastOf 1073741824).playlist.length : Int)) = -2147483648 ∧
    prevIndexInt32 (lastOf 1073741824) = some (-1073741823) := by
  have hlen : (lastOf 1073741824).playlist.length = 1073741825 :=
    List.length_replicate (1073741824 + 1) "a.mp3"
  have hcur : (lastOf 1073741824).currentIndex = 1073741824 := rfl
  refine ⟨lastOf_reachable 1073741824, hlen, hcur, ?_, ?_, ?_⟩
  · rw [hcur, hlen]
    norm_num
  · rw [hcur, hlen]
    decide
  · unfold prevIndexInt32
    rw [hcur, hlen]
    decide

end MusicPlayer

namespace MusicPlayer

/-! ## `play` and the status line under the loaded-handle invariant -/

/-- Neither player left by a load with a handle still loaded satisfies the loaded-handle
invariant. -/
theorem stale_not_handleInv : ¬ HandleInv staleEmpty ∧ ¬ HandleInv staleTrack := by
  constructor
  · intro h
    have h0 := (h _ rfl).1
    exact absurd h0 (by decide)
  · intro h
    have h2 := (h _ rfl).2.2
    exact absurd h2 (by decide)

/-- On every state that satisfies the cursor invariant and the loaded-handle invariant, `play` on
an empty playlist writes `No songs in playlist.` and does nothing else. -/
theorem play_empty_of_handleInv (openFromFile : String → Bool) (s : MusicPlayer)
    (hc : CursorInv s) (hh : HandleInv s) (hnil : s.playlist = []) :
    play openFromFile s
      = some { s with trace := s.trace ++ [Event.cout "No songs in playlist.\n"] } := by
  have hm : s.music = none := by
    cases hm : s.music with
    | none => rfl
    | some m =>
      obtain ⟨h0, h1, _⟩ := hh m hm
      rw [hnil] at h1
      simp at h1
      omega
  have hcur : s.currentIndex = -1 := by
    rcases hc with ⟨_, hc⟩ | ⟨h0, h1⟩
    · exact hc
    · rw [hnil] at h1
      simp at h1
      omega
  simp [play, hm, hcur, hnil, emit]

/-- On every state that satisfies the loaded-handle invariant, the status line of a loaded handle
holds its status, the reference it was opened on, which is the track at the cursor, the volume
and the loop flag. -/
theorem printStatus_of_handleInv (showFloat : FloatVal → String) (s : MusicPlayer) (m : Music)
    (hh : HandleInv s) (hm : s.music = some m) :
    ∃ ref, m.source = some ref ∧ s.playlist[s.currentIndex.toNat]? = some ref ∧
      printStatus showFloat s =
        "Status: " ++ (statusToString m.status ++ " | Track: " ++ ref ++ " | Volume: "
          ++ showFloat s.volume ++ " | Loop: " ++ (if s.looping then "Yes" else "No") ++ "\n") := by
  obtain ⟨h0, h1, hsrc⟩ := hh m hm
  have hlt : s.currentIndex.toNat < s.playlist.length := by omega
  have href : s.playlist[s.currentIndex.toNat]? = some (s.playlist[s.currentIndex.toNat]) :=
    List.getElem?_eq_getElem hlt
  refine ⟨_, hsrc.trans href, href, ?_⟩
  have hsub : subscript s.playlist s.currentIndex = some (s.playlist[s.currentIndex.toNat]) := by
    rw [subscript_of_nonneg _ _ h0, href]
  simp [printStatus, hm, h0, h1, hsub, String.append_assoc]

end MusicPlayer
